import Mathlib

/-!
# learn-browser: shallow embedding of the HTTP client core

This development embeds the data model and operations of the learn-browser
repository (src/url.rs and src/socket.rs) and settles the stated properties.

Embedding choices:
- Rust `String` becomes Lean `String`; character-level algorithms work on
  `String.data : List Char`.
- `u16` becomes `Nat`, with the 65535 bound enforced where the source
  enforces it (`parse::<u16>`).
- `u8` bytes become `Nat` values, with `b < 256` as a hypothesis where a
  statement needs the byte range; the `as char` cast is `Char.ofNat`.
- `Result<T, String>` becomes `Except String T`.
- The `HashMap<String, String>` of headers becomes an association list with
  unique keys, where insertion replaces an existing binding.
- The `Socket` trait object observed by `make_request_with_socket` is
  embedded as a script of the results its four operations return during one
  run: a connect outcome, a send outcome, the successive read_line outcomes,
  and the read_to_string outcome at the single point it can be called.  Any
  terminating run of the generic Rust function against any trait
  implementation is reproduced by one such script.
- The byte-stream socket of src/socket.rs (read_line, read_to_string over an
  underlying stream) is embedded separately over the list of bytes the
  stream will deliver before closing.
-/

namespace LearnBrowser

/-- Scheme enumeration from src/url.rs. -/
inductive Scheme
  | Http
  | Https
  deriving DecidableEq, Repr

/-- Url record from src/url.rs. -/
structure Url where
  scheme : Scheme
  host : String
  path : String
  deriving DecidableEq, Repr

/-- HttpResponse record from src/url.rs; `status` is a u16 in the source and
the headers HashMap is an association list with unique keys here. -/
structure HttpResponse where
  version : String
  status : Nat
  explanation : String
  headers : List (String × String)
  body : String
  deriving DecidableEq, Repr

/-- Decide whether `pat` is an initial segment of the first list. -/
def startsWithChars : List Char → List Char → Bool
  | _, [] => true
  | [], _ :: _ => false
  | c :: s, p :: ps => c == p && startsWithChars s ps

/-- Split a character list at the first occurrence of the pattern `pat`,
embedding Rust `splitn(2, pat)`: `some (before, after)` when the pattern
occurs, `none` otherwise. -/
def splitOnSubstr (pat : List Char) : List Char → Option (List Char × List Char)
  | [] => if startsWithChars [] pat then some ([], []) else none
  | c :: rest =>
    if startsWithChars (c :: rest) pat then some ([], (c :: rest).drop pat.length)
    else (splitOnSubstr pat rest).map fun q => (c :: q.1, q.2)

/-- Url::new from src/url.rs lines 113-135: split on the first "://", match
the scheme name exactly, then split the remainder on the first slash into
host and path. -/
def Url.new (raw_url : String) : Except String Url :=
  match splitOnSubstr "://".data raw_url.data with
  | none => .error "Invalid URL: missing scheme"
  | some (schemePart, remaining) =>
    let schemeName := String.mk schemePart
    if schemeName = "http" then
      match splitOnSubstr ['/'] remaining with
      | none => .ok { scheme := Scheme.Http, host := String.mk remaining, path := "/" }
      | some (hostPart, pathRest) =>
        .ok { scheme := Scheme.Http, host := String.mk hostPart,
              path := "/" ++ String.mk pathRest }
    else if schemeName = "https" then
      match splitOnSubstr ['/'] remaining with
      | none => .ok { scheme := Scheme.Https, host := String.mk remaining, path := "/" }
      | some (hostPart, pathRest) =>
        .ok { scheme := Scheme.Https, host := String.mk hostPart,
              path := "/" ++ String.mk pathRest }
    else .error ("Unsupported scheme: " ++ schemeName)

/-- Scan of strip_html_tags (src/url.rs lines 96-110): left-to-right over the
characters with the in_tag flag. -/
def stripAux : List Char → Bool → List Char
  | [], _ => []
  | c :: rest, in_tag =>
    if c = '<' then stripAux rest true
    else if c = '>' then stripAux rest false
    else if in_tag then stripAux rest in_tag
    else c :: stripAux rest in_tag

/-- strip_html_tags from src/url.rs lines 96-110. -/
def strip_html_tags (text : String) : String :=
  String.mk (stripAux text.data false)

/-- Helper for `trimEndCRLF`: on a reversed character list, repeatedly drop a
leading "\n\r" pair (a trailing "\r\n" of the original). -/
def dropCRLFrev : List Char → List Char
  | '\n' :: '\r' :: rest => dropCRLFrev rest
  | l => l

/-- Rust `trim_end_matches("\r\n")`: repeatedly remove a trailing "\r\n". -/
def trimEndCRLF (s : String) : String :=
  String.mk (dropCRLFrev s.data.reverse).reverse

/-- Rust `split(' ')` over the characters: split at every single space,
keeping empty segments; the result is always nonempty. -/
def splitOnSpace : List Char → List (List Char)
  | [] => [[]]
  | c :: rest =>
    if c = ' ' then [] :: splitOnSpace rest
    else
      match splitOnSpace rest with
      | t :: ts => (c :: t) :: ts
      | [] => [[c]]

/-- Decimal value of a digit list, most significant first. -/
def digitsToNat (ds : List Char) : Nat :=
  ds.foldl (fun a c => a * 10 + (c.toNat - 48)) 0

/-- Digit-sequence part of `parseU16`: one or more ASCII digits whose decimal
value must fit in 16 bits. -/
def parseU16core (ds : List Char) : Option Nat :=
  if ds = [] then none
  else if ds.all Char.isDigit then
    if digitsToNat ds ≤ 65535 then some (digitsToNat ds) else none
  else none

/-- Rust `str::parse::<u16>`: an optional leading plus sign, then one or more
ASCII digits, whose decimal value must fit in 16 bits. -/
def parseU16 (s : String) : Option Nat :=
  match s.data with
  | '+' :: rest => parseU16core rest
  | l => parseU16core l

/-- Status-line parsing of make_request_with_socket (src/url.rs lines 41-53):
strip trailing "\r\n", split on single spaces, require at least three tokens,
parse the second as a u16, rejoin the rest as the explanation. -/
def parseStatusLine (line : String) : Except String (String × Nat × String) :=
  match (splitOnSpace (trimEndCRLF line).data).map String.mk with
  | version :: code :: e1 :: rest =>
    match parseU16 code with
    | none => .error "Invalid HTTP status code"
    | some status => .ok (version, status, " ".intercalate (e1 :: rest))
  | _ => .error "Invalid HTTP status line"

/-- Split a character list at its first colon (Rust `line.find(':')` plus the
two slices around it). -/
def splitAtColon : List Char → Option (List Char × List Char)
  | [] => none
  | c :: rest =>
    if c = ':' then some ([], rest)
    else (splitAtColon rest).map fun q => (c :: q.1, q.2)

/-- HashMap insertion on the association-list embedding: drop any existing
binding of the key, then bind it to the new value. -/
def insertHeader (headers : List (String × String)) (k v : String) :
    List (String × String) :=
  headers.filter (fun p => p.1 != k) ++ [(k, v)]

/-- HashMap lookup on the association-list embedding. -/
def getHeader (headers : List (String × String)) (k : String) : Option String :=
  (headers.find? fun p => p.1 == k).map Prod.snd

/-- Header-line processing of make_request_with_socket (src/url.rs lines
61-68): strip trailing "\r\n"; at the first colon, trim and lower-case the
name, trim the value, insert; with no colon the line is ignored. -/
def parseHeaderLine (headers : List (String × String)) (line : String) :
    List (String × String) :=
  match splitAtColon (trimEndCRLF line).data with
  | some (name, value) =>
    insertHeader headers (String.mk name).trim.toLower (String.mk value).trim
  | none => headers

/-- Header loop of make_request_with_socket (src/url.rs lines 57-69) over the
script of remaining read_line results: read until a line equal to "\r\n";
an exhausted script is a failing read_line. -/
def readHeadersLoop :
    List (Except String String) → List (String × String) →
    Except String (List (String × String) × List (Except String String))
  | [], _ => .error "No more lines to read"
  | r :: rest, headers =>
    match r with
    | .error e => .error e
    | .ok line =>
      if line = "\r\n" then .ok (headers, rest)
      else readHeadersLoop rest (parseHeaderLine headers line)

/-- Observable behavior of one Socket trait object during one engine run:
the connect outcome, the send outcome, the successive read_line outcomes
(an exhausted list reads as a failure), and the read_to_string outcome. -/
structure ScriptSocket where
  connectResult : Except String Unit
  sendResult : Except String Unit
  lines : List (Except String String)
  bodyResult : Except String String

/-- make_request_with_socket from src/url.rs lines 32-81, returning the
result together with the connect calls (host, port) and send calls (data)
issued to the socket.  Note the source passes port 80 to `socket.connect`
for every scheme. -/
def make_request_with_socket (sock : ScriptSocket) (url : Url) :
    Except String HttpResponse × List (String × Nat) × List String :=
  let connectCalls := [(url.host, 80)]
  match sock.connectResult with
  | .error e => (.error e, connectCalls, [])
  | .ok _ =>
    let http_request :=
      "GET " ++ url.path ++ " HTTP/1.0\r\nHost: " ++ url.host ++ "\r\n\r\n"
    let sendCalls := [http_request]
    match sock.sendResult with
    | .error e => (.error e, connectCalls, sendCalls)
    | .ok _ =>
      match sock.lines with
      | [] => (.error "No more lines to read", connectCalls, sendCalls)
      | statusRes :: rest =>
        match statusRes with
        | .error e => (.error e, connectCalls, sendCalls)
        | .ok statusLineRaw =>
          match parseStatusLine statusLineRaw with
          | .error e => (.error e, connectCalls, sendCalls)
          | .ok (version, status, explanation) =>
            match readHeadersLoop rest [] with
            | .error e => (.error e, connectCalls, sendCalls)
            | .ok (headers, _) =>
              match sock.bodyResult with
              | .error e => (.error e, connectCalls, sendCalls)
              | .ok body =>
                (.ok { version := version, status := status,
                       explanation := explanation, headers := headers,
                       body := body },
                 connectCalls, sendCalls)

/-- Port hard-wired per scheme by `request` when it connects its provider
(src/url.rs lines 83-94): 80 for Http, 443 for Https. -/
def schemePort : Scheme → Nat
  | Scheme.Http => 80
  | Scheme.Https => 443

/-- request from src/url.rs lines 83-94.  The network effect of connect_http
and connect_https (src/socket.rs lines 11-34) is embedded as the given
`provider` outcome: a connection error, or a connected socket behavior.
The provider connection itself is recorded as the first connect call, with
the port the source passes (80 for Http, 443 for Https). -/
def request (url : Url) (provider : Except String ScriptSocket) :
    Except String HttpResponse × List (String × Nat) × List String :=
  match url.scheme with
  | Scheme.Http =>
    match provider with
    | .error e => (.error e, [(url.host, 80)], [])
    | .ok socket =>
      let r := make_request_with_socket socket url
      (r.1, (url.host, 80) :: r.2.1, r.2.2)
  | Scheme.Https =>
    match provider with
    | .error e => (.error e, [(url.host, 443)], [])
    | .ok socket =>
      let r := make_request_with_socket socket url
      (r.1, (url.host, 443) :: r.2.1, r.2.2)

/-- Loop body of HttpSocket::read_line (src/socket.rs lines 47-72) over the
bytes the stream will deliver before closing, carrying the accumulated
characters: at end of stream, fail if nothing was read, else return the
partial line; otherwise cast the byte to a char, append it, and stop after
a newline. -/
def read_line_go : List Nat → List Char → Except String (String × List Nat)
  | [], line =>
    if line = [] then .error "End of file reached" else .ok (String.mk line, [])
  | b :: rest, line =>
    if Char.ofNat b = '\n' then .ok (String.mk (line ++ [Char.ofNat b]), rest)
    else read_line_go rest (line ++ [Char.ofNat b])

/-- HttpSocket::read_line from src/socket.rs lines 47-72. -/
def read_line (stream : List Nat) : Except String (String × List Nat) :=
  read_line_go stream []

/-- HttpSocket::read_to_string from src/socket.rs lines 74-80: read every
remaining byte until the stream closes; end of stream is success. -/
def read_to_string (stream : List Nat) : Except String (String × List Nat) :=
  .ok (String.mk (stream.map Char.ofNat), [])

/-- Script predicate for claim C2: along the upcoming read_line results, a
failure (or script exhaustion, which reads as a failure) occurs before any
successful line equal to "\r\n". -/
def failsBeforeBlank : List (Except String String) → Bool
  | [] => true
  | .error _ :: _ => true
  | .ok line :: rest => line != "\r\n" && failsBeforeBlank rest

/-! ## Lemmas about the markup stripper -/

/-- While the in_tag flag is set, a chunk with no closing angle bracket emits
nothing. -/
lemma stripAux_drop_of_no_gt {b : List Char} (hb : '>' ∉ b) : stripAux b true = [] := by
  induction b with
  | nil => rfl
  | cons c rest ih =>
    simp only [List.mem_cons, not_or] at hb
    have h2 : c ≠ '>' := fun h => hb.1 h.symm
    by_cases h1 : c = '<'
    · simp [stripAux, h1, ih hb.2]
    · simp [stripAux, h1, h2, ih hb.2]

/-- An unmatched opening angle bracket discards the whole remainder when no
closing bracket follows. -/
lemma stripAux_append_lt {b : List Char} (hb : '>' ∉ b) :
    ∀ (l : List Char) (f : Bool), stripAux (l ++ '<' :: b) f = stripAux l f := by
  intro l
  induction l with
  | nil =>
    intro f
    simp [stripAux, stripAux_drop_of_no_gt hb]
  | cons c rest ih =>
    intro f
    by_cases h1 : c = '<'
    · simp [stripAux, h1, ih]
    · by_cases h2 : c = '>'
      · simp [stripAux, h1, h2, ih]
      · by_cases h3 : f
        · simp [stripAux, h1, h2, h3, ih]
        · simp [stripAux, h1, h2, h3, ih]

/-- The stripper never emits an angle bracket. -/
lemma stripAux_no_angle (l : List Char) (f : Bool) :
    '<' ∉ stripAux l f ∧ '>' ∉ stripAux l f := by
  induction l generalizing f with
  | nil => simp [stripAux]
  | cons c rest ih =>
    by_cases h1 : c = '<'
    · simpa [stripAux, h1] using ih true
    · by_cases h2 : c = '>'
      · simpa [stripAux, h1, h2] using ih false
      · by_cases h3 : f
        · simpa [stripAux, h1, h2, h3] using ih f
        · have hlt : '<' ≠ c := fun h => h1 h.symm
          have hgt : '>' ≠ c := fun h => h2 h.symm
          simp only [Bool.not_eq_true] at h3
          subst h3
          have := ih false
          simp [stripAux, h1, h2, List.mem_cons, hlt, hgt, this.1, this.2]

/-- A string without angle brackets passes through the scan unchanged. -/
lemma stripAux_id {l : List Char} (h1 : '<' ∉ l) (h2 : '>' ∉ l) :
    stripAux l false = l := by
  induction l with
  | nil => rfl
  | cons c rest ih =>
    simp only [List.mem_cons, not_or] at h1 h2
    have hlt : c ≠ '<' := fun h => h1.1 h.symm
    have hgt : c ≠ '>' := fun h => h2.1 h.symm
    simp [stripAux, hlt, hgt, ih h1.2 h2.2]

/-- Claim C8: the markup stripper performs a single left-to-right scan with a
boolean inside-tag flag; text without brackets passes through unchanged, a
closing-bracket-free tail after an opening bracket is discarded entirely, and
the concrete examples strip("&lt;a&gt;x&lt;/a&gt;") = "x", strip("") = "", and
strip("no tags") = "no tags" hold. -/
theorem c8_strip_scan :
    strip_html_tags "<a>x</a>" = "x"
    ∧ strip_html_tags "" = ""
    ∧ strip_html_tags "no tags" = "no tags"
    ∧ (∀ s : String, '<' ∉ s.data → '>' ∉ s.data → strip_html_tags s = s)
    ∧ (∀ (l b : List Char) (f : Bool), '>' ∉ b →
        stripAux (l ++ '<' :: b) f = stripAux l f) := by
  refine ⟨by decide, by decide, by decide, ?_, ?_⟩
  · intro s h1 h2
    cases s with
    | mk data =>
      simp only [strip_html_tags]
      exact congrArg String.mk (stripAux_id h1 h2)
  · intro l b f hb
    exact stripAux_append_lt hb l f

/-- Witness for C8 at concrete inputs. -/
theorem c8_strip_scan_witness :
    strip_html_tags "xy" = "xy"
    ∧ stripAux ('a' :: '<' :: ['b']) false = stripAux ['a'] false :=
  ⟨c8_strip_scan.2.2.2.1 "xy" (by decide) (by decide),
   c8_strip_scan.2.2.2.2 ['a'] ['b'] false (by decide)⟩

/-- Claim C9: the markup stripper is idempotent. -/
theorem c9_strip_idempotent (s : String) :
    strip_html_tags (strip_html_tags s) = strip_html_tags s := by
  have h := stripAux_no_angle s.data false
  simp only [strip_html_tags]
  exact congrArg String.mk (stripAux_id h.1 h.2)

/-! ## Lemmas about first-occurrence splitting and the URL parser -/

/-- Characterization of the initial-segment test. -/
lemma startsWithChars_iff (s pat : List Char) :
    startsWithChars s pat = true ↔ ∃ t, s = pat ++ t := by
  induction pat generalizing s with
  | nil =>
    constructor
    · intro _
      exact ⟨s, by simp⟩
    · intro _
      cases s <;> rfl
  | cons p ps ih =>
    cases s with
    | nil =>
      simp only [startsWithChars, List.cons_append]
      constructor
      · intro h; exact absurd h (by simp)
      · rintro ⟨t, h⟩; exact absurd h (by simp)
    | cons c s =>
      simp only [startsWithChars, Bool.and_eq_true, beq_iff_eq, ih, List.cons_append]
      constructor
      · rintro ⟨rfl, t, rfl⟩; exact ⟨t, rfl⟩
      · rintro ⟨t, h⟩
        injection h with h1 h2
        exact ⟨h1, t, h2⟩

/-- The splitter returns `none` exactly when the pattern does not occur. -/
lemma splitOnSubstr_none_iff (pat s : List Char) :
    splitOnSubstr pat s = none ↔ ¬ ∃ a b, s = a ++ pat ++ b := by
  induction s with
  | nil =>
    simp only [splitOnSubstr]
    by_cases h : startsWithChars [] pat = true
    · obtain ⟨t, ht⟩ := (startsWithChars_iff [] pat).mp h
      have hpat : pat = [] := by
        cases pat with
        | nil => rfl
        | cons p ps => simp at ht
      subst hpat
      simp [h]
    · have hpat : pat ≠ [] := by
        intro hp
        subst hp
        exact h rfl
      rw [if_neg h]
      simp only [true_iff]
      rintro ⟨a, b, hab⟩
      have : a = [] ∧ pat ++ b = [] := by
        constructor
        · cases a with
          | nil => rfl
          | cons x xs => simp at hab
        · cases a with
          | nil => simpa using hab.symm
          | cons x xs => simp at hab
      have := this.2
      cases pat with
      | nil => exact hpat rfl
      | cons p ps => simp at this
  | cons c rest ih =>
    simp only [splitOnSubstr]
    by_cases h : startsWithChars (c :: rest) pat = true
    · rw [if_pos h]
      obtain ⟨t, ht⟩ := (startsWithChars_iff _ pat).mp h
      simp only [false_iff, not_not, reduceCtorEq]
      exact ⟨[], t, by simpa using ht⟩
    · rw [if_neg h]
      rw [Option.map_eq_none']
      rw [ih]
      constructor
      · intro hno
        rintro ⟨a, b, hab⟩
        cases a with
        | nil =>
          exact h ((startsWithChars_iff _ pat).mpr ⟨b, by simpa using hab⟩)
        | cons x xs =>
          simp only [List.cons_append, List.append_assoc] at hab
          injection hab with h1 h2
          exact hno ⟨xs, b, by simpa [List.append_assoc] using h2⟩
      · intro hno ⟨a, b, hab⟩
        exact hno ⟨c :: a, b, by simp [hab]⟩

/-- A successful split decomposes the input at the first occurrence of the
pattern. -/
lemma splitOnSubstr_some (pat s a b : List Char)
    (h : splitOnSubstr pat s = some (a, b)) :
    s = a ++ pat ++ b ∧ ∀ a2 b2, s = a2 ++ pat ++ b2 → a.length ≤ a2.length := by
  induction s generalizing a b with
  | nil =>
    simp only [splitOnSubstr] at h
    by_cases hs : startsWithChars [] pat = true
    · obtain ⟨t, ht⟩ := (startsWithChars_iff [] pat).mp hs
      have hpat : pat = [] := by
        cases pat with
        | nil => rfl
        | cons p ps => simp at ht
      subst hpat
      rw [if_pos hs] at h
      injection h with h
      injection h with h1 h2
      subst h1; subst h2
      exact ⟨rfl, fun a2 b2 _ => Nat.zero_le _⟩
    · rw [if_neg hs] at h
      exact absurd h (by simp)
  | cons c rest ih =>
    simp only [splitOnSubstr] at h
    by_cases hs : startsWithChars (c :: rest) pat = true
    · rw [if_pos hs] at h
      injection h with h
      injection h with h1 h2
      subst h1
      obtain ⟨t, ht⟩ := (startsWithChars_iff _ pat).mp hs
      have hb : b = t := by
        rw [← h2, ht]
        simp
      subst hb
      exact ⟨by simpa using ht, fun a2 b2 _ => Nat.zero_le _⟩
    · rw [if_neg hs] at h
      rw [Option.map_eq_some'] at h
      obtain ⟨⟨a1, b1⟩, hrec, heq⟩ := h
      injection heq with he1 he2
      obtain ⟨hdec, hmin⟩ := ih a1 b1 hrec
      subst he2
      constructor
      · rw [← he1, hdec]; simp
      · intro a2 b2 hab
        cases a2 with
        | nil =>
          exact absurd ((startsWithChars_iff _ pat).mpr ⟨b2, by simpa using hab⟩) hs
        | cons x xs =>
          simp only [List.cons_append, List.append_assoc] at hab
          injection hab with h1 h2
          have := hmin xs b2 (by simpa [List.append_assoc] using h2)
          subst he1
          simpa using Nat.succ_le_succ this

/-- Claim C6: the URL parser fails with the missing-scheme error when "://"
does not occur; at a successful split on the first "://", a scheme name other
than "http" or "https" fails with the unsupported-scheme error carrying that
name, while a known scheme yields a Url whose host is the remainder up to the
first slash (an empty host included) and whose path is a slash followed by
the rest, exactly "/" when the remainder has no slash. -/
theorem c6_url_parse :
    (∀ raw : String, (¬ ∃ a b, raw.data = a ++ "://".data ++ b) →
      Url.new raw = .error "Invalid URL: missing scheme")
    ∧ (∀ (raw : String) (sch rem : List Char),
        splitOnSubstr "://".data raw.data = some (sch, rem) →
        raw.data = sch ++ "://".data ++ rem
        ∧ (∀ a2 b2, raw.data = a2 ++ "://".data ++ b2 → sch.length ≤ a2.length)
        ∧ (String.mk sch ≠ "http" → String.mk sch ≠ "https" →
            Url.new raw = .error ("Unsupported scheme: " ++ String.mk sch))
        ∧ (∀ scheme : Scheme,
            (String.mk sch = "http" ∧ scheme = Scheme.Http)
              ∨ (String.mk sch = "https" ∧ scheme = Scheme.Https) →
            ((¬ ∃ h p, rem = h ++ '/' :: p) →
              Url.new raw = .ok { scheme := scheme, host := String.mk rem, path := "/" })
            ∧ (∀ h p, splitOnSubstr ['/'] rem = some (h, p) →
                rem = h ++ '/' :: p
                ∧ (∀ h2 p2, rem = h2 ++ '/' :: p2 → h.length ≤ h2.length)
                ∧ Url.new raw = .ok { scheme := scheme, host := String.mk h,
                                      path := "/" ++ String.mk p }))) := by
  constructor
  · intro raw hno
    have hsplit : splitOnSubstr "://".data raw.data = none :=
      (splitOnSubstr_none_iff _ _).mpr hno
    simp [Url.new, hsplit]
  · intro raw sch rem hsplit
    obtain ⟨hdec, hmin⟩ := splitOnSubstr_some _ _ _ _ hsplit
    refine ⟨hdec, hmin, ?_, ?_⟩
    · intro h1 h2
      simp [Url.new, hsplit, h1, h2]
    · intro scheme hscheme
      constructor
      · intro hnoslash
        have hsub : splitOnSubstr ['/'] rem = none := by
          rw [splitOnSubstr_none_iff]
          rintro ⟨a, b, hab⟩
          exact hnoslash ⟨a, b, by simpa using hab⟩
        rcases hscheme with ⟨hname, rfl⟩ | ⟨hname, rfl⟩
        · simp [Url.new, hsplit, hname, hsub]
        · simp [Url.new, hsplit, hname, hsub]
      · intro h p hsub
        obtain ⟨hd2, hm2⟩ := splitOnSubstr_some _ _ _ _ hsub
        refine ⟨by simpa using hd2, ?_, ?_⟩
        · intro h2 p2 hab
          exact hm2 h2 p2 (by simpa using hab)
        · rcases hscheme with ⟨hname, rfl⟩ | ⟨hname, rfl⟩
          · simp [Url.new, hsplit, hname, hsub]
          · simp [Url.new, hsplit, hname, hsub]

/-- Witness for C6 at concrete inputs: a URL with a path, a URL without a
path, a missing separator, an unsupported scheme, and an empty host. -/
theorem c6_url_parse_witness :
    Url.new "invalid-url" = .error "Invalid URL: missing scheme"
    ∧ Url.new "ftp://x" = .error ("Unsupported scheme: " ++ String.mk "ftp".data)
    ∧ Url.new "http://google.com" =
        .ok { scheme := Scheme.Http, host := String.mk "google.com".data, path := "/" }
    ∧ Url.new "https://example.com/a/b" =
        .ok { scheme := Scheme.Https, host := String.mk "example.com".data,
              path := "/" ++ String.mk "a/b".data }
    ∧ Url.new "http:///x" =
        .ok { scheme := Scheme.Http, host := String.mk "".data,
              path := "/" ++ String.mk "x".data } := by
  refine ⟨?_, ?_, ?_, ?_, ?_⟩
  · exact c6_url_parse.1 "invalid-url"
      ((splitOnSubstr_none_iff "://".data "invalid-url".data).mp (by decide))
  · exact (c6_url_parse.2 "ftp://x" "ftp".data "x".data (by decide)).2.2.1
      (by decide) (by decide)
  · exact ((c6_url_parse.2 "http://google.com" "http".data "google.com".data
      (by decide)).2.2.2 Scheme.Http (Or.inl ⟨by decide, rfl⟩)).1
      (by simpa using (splitOnSubstr_none_iff ['/'] "google.com".data).mp (by decide))
  · exact (((c6_url_parse.2 "https://example.com/a/b" "https".data
      "example.com/a/b".data (by decide)).2.2.2 Scheme.Https
      (Or.inr ⟨by decide, rfl⟩)).2 "example.com".data "a/b".data (by decide)).2.2
  · exact (((c6_url_parse.2 "http:///x" "http".data "/x".data
      (by decide)).2.2.2 Scheme.Http (Or.inl ⟨by decide, rfl⟩)).2 "".data "x".data
      (by decide)).2.2

/-! ## Lemmas about the byte-stream read_line -/

set_option maxRecDepth 4096 in
/-- Among byte values, only 10 casts to the newline character. -/
lemma charOfNat_newline_fin : ∀ b : Fin 256, (Char.ofNat b.val = '\n') ↔ b.val = 10 := by
  decide

/-- Byte-range form of `charOfNat_newline_fin`. -/
lemma charOfNat_eq_newline {b : Nat} (hb : b < 256) : Char.ofNat b = '\n' ↔ b = 10 :=
  charOfNat_newline_fin ⟨b, hb⟩

/-- A stream with a newline: the loop returns everything through the first
newline and leaves the rest. -/
lemma read_line_go_newline :
    ∀ (pre rest : List Nat) (acc : List Char), (∀ x ∈ pre, x < 256) → 10 ∉ pre →
      read_line_go (pre ++ 10 :: rest) acc =
        .ok (String.mk (acc ++ pre.map Char.ofNat ++ ['\n']), rest) := by
  intro pre
  induction pre with
  | nil =>
    intro rest acc _ _
    have h10 : Char.ofNat 10 = '\n' := by decide
    simp [read_line_go, h10]
  | cons b pre ih =>
    intro rest acc hlt hnot
    have hb : b < 256 := hlt b (List.mem_cons_self b pre)
    have hb10 : b ≠ 10 := fun h => hnot (h ▸ List.mem_cons_self b pre)
    have hch : ¬ Char.ofNat b = '\n' := fun h => hb10 ((charOfNat_eq_newline hb).mp h)
    simp only [List.cons_append, read_line_go, if_neg hch]
    show read_line_go (pre ++ 10 :: rest) (acc ++ [Char.ofNat b]) = _
    rw [ih rest (acc ++ [Char.ofNat b])
      (fun x hx => hlt x (List.mem_cons_of_mem b hx))
      (fun hx => hnot (List.mem_cons_of_mem b hx))]
    simp [List.append_assoc]

/-- A nonempty stream without a newline: the loop consumes everything and
returns the partial line as success. -/
lemma read_line_go_partial :
    ∀ (stream : List Nat) (acc : List Char), stream ≠ [] → (∀ x ∈ stream, x < 256) →
      10 ∉ stream →
      read_line_go stream acc = .ok (String.mk (acc ++ stream.map Char.ofNat), []) := by
  intro stream
  induction stream with
  | nil => intro acc h; exact absurd rfl h
  | cons b rest ih =>
    intro acc _ hlt hnot
    have hb : b < 256 := hlt b (List.mem_cons_self b rest)
    have hb10 : b ≠ 10 := fun h => hnot (h ▸ List.mem_cons_self b rest)
    have hch : ¬ Char.ofNat b = '\n' := fun h => hb10 ((charOfNat_eq_newline hb).mp h)
    simp only [read_line_go, if_neg hch]
    cases rest with
    | nil =>
      simp [read_line_go]
    | cons b2 r2 =>
      show read_line_go (b2 :: r2) (acc ++ [Char.ofNat b]) = _
      rw [ih (acc ++ [Char.ofNat b]) (by simp)
        (fun x hx => hlt x (List.mem_cons_of_mem b hx))
        (fun hx => hnot (List.mem_cons_of_mem b hx))]
      simp [List.append_assoc]

/-- Claim C5: read_line fails with the end-of-stream error on an empty
stream; on a stream containing a newline it returns the bytes through the
first newline, terminator included, and leaves the remainder; on a nonempty
stream with no newline it returns the whole partial line as success, with no
trailing newline in it. -/
theorem c5_read_line :
    read_line [] = .error "End of file reached"
    ∧ (∀ pre rest : List Nat, (∀ x ∈ pre, x < 256) → (10:Nat) ∉ pre →
        read_line (pre ++ 10 :: rest) =
          .ok (String.mk (pre.map Char.ofNat ++ ['\n']), rest))
    ∧ (∀ stream : List Nat, stream ≠ [] → (∀ x ∈ stream, x < 256) →
        (10:Nat) ∉ stream →
        read_line stream = .ok (String.mk (stream.map Char.ofNat), [])
        ∧ '\n' ∉ stream.map Char.ofNat) := by
  refine ⟨rfl, ?_, ?_⟩
  · intro pre rest hlt hnot
    simpa using read_line_go_newline pre rest [] hlt hnot
  · intro stream hne hlt hnot
    constructor
    · simpa using read_line_go_partial stream [] hne hlt hnot
    · intro hmem
      rw [List.mem_map] at hmem
      obtain ⟨b, hb, hbn⟩ := hmem
      exact hnot (((charOfNat_eq_newline (hlt b hb)).mp hbn) ▸ hb)

/-- Witness for C5 at concrete byte streams. -/
theorem c5_read_line_witness :
    read_line [97, 10, 98] = .ok (String.mk ([97].map Char.ofNat ++ ['\n']), [98])
    ∧ read_line [97, 98] = .ok (String.mk ([97, 98].map Char.ofNat), []) :=
  ⟨c5_read_line.2.1 [97] [98] (by decide) (by decide),
   (c5_read_line.2.2 [97, 98] (by decide) (by decide) (by decide)).1⟩

/-! ## Lemmas about status-line parsing -/

/-- A value accepted by the digit parser fits in 16 bits. -/
lemma parseU16core_le {ds : List Char} {n : Nat} (h : parseU16core ds = some n) :
    n ≤ 65535 := by
  unfold parseU16core at h
  split at h
  · exact absurd h (by simp)
  · split at h
    · split at h
      · rename_i hle
        injection h with h
        omega
      · exact absurd h (by simp)
    · exact absurd h (by simp)

/-- A value accepted by parseU16 fits in 16 bits. -/
lemma parseU16_le {s : String} {n : Nat} (h : parseU16 s = some n) : n ≤ 65535 := by
  unfold parseU16 at h
  split at h
  · exact parseU16core_le h
  · exact parseU16core_le h

/-- A nonempty digit sequence whose value exceeds 65535 is rejected. -/
lemma parseU16core_none_of_big {ds : List Char} (h1 : ds ≠ [])
    (h3 : 65535 < digitsToNat ds) : parseU16core ds = none := by
  unfold parseU16core
  rw [if_neg h1]
  by_cases hd : ds.all Char.isDigit
  · rw [if_pos hd, if_neg (by omega)]
  · rw [if_neg hd]

/-- On an all-digit string the optional plus sign never fires. -/
lemma parseU16_eq_core_of_digits {s : String} (hd : ∀ c ∈ s.data, c.isDigit) :
    parseU16 s = parseU16core s.data := by
  unfold parseU16
  split
  · rename_i rest heq
    have hplus : ('+' : Char).isDigit := hd '+' (by rw [heq]; exact List.mem_cons_self _ _)
    exact absurd hplus (by decide)
  · rfl

/-- Status-line parsing at a token list of length at least three. -/
lemma parseStatusLine_tokens {line v code e1 : String} {rest : List String}
    (h : (splitOnSpace (trimEndCRLF line).data).map String.mk = v :: code :: e1 :: rest) :
    parseStatusLine line =
      match parseU16 code with
      | none => .error "Invalid HTTP status code"
      | some n => .ok (v, n, " ".intercalate (e1 :: rest)) := by
  unfold parseStatusLine
  rw [h]

/-- Status-line parsing at a token list of length below three. -/
lemma parseStatusLine_short {line : String}
    (h : (splitOnSpace (trimEndCRLF line).data).length < 3) :
    parseStatusLine line = .error "Invalid HTTP status line" := by
  unfold parseStatusLine
  generalize hL : (splitOnSpace (trimEndCRLF line).data).map String.mk = L
  have hlen : L.length < 3 := by
    rw [← hL, List.length_map]
    exact h
  rcases L with _ | ⟨a, _ | ⟨b, _ | ⟨c, t⟩⟩⟩
  · rfl
  · rfl
  · rfl
  · simp [List.length_cons] at hlen
    omega

/-- Any status accepted by the status-line parser fits in 16 bits. -/
lemma parseStatusLine_status_le {line v ex : String} {n : Nat}
    (h : parseStatusLine line = .ok (v, n, ex)) : n ≤ 65535 := by
  unfold parseStatusLine at h
  split at h
  · split at h
    · exact absurd h (by simp)
    · rename_i m hm
      injection h with h
      injection h with h1 h2
      injection h2 with h2 h3
      exact h2 ▸ parseU16_le hm
  · exact absurd h (by simp)

/-- A successful engine run reports a status accepted by the status-line
parser. -/
lemma make_request_status {sock : ScriptSocket} {url : Url} {resp : HttpResponse}
    (h : (make_request_with_socket sock url).1 = .ok resp) :
    ∃ line v ex, parseStatusLine line = .ok (v, resp.status, ex) := by
  obtain ⟨cr, sr, lns, br⟩ := sock
  cases cr with
  | error e => simp [make_request_with_socket] at h
  | ok u =>
    cases sr with
    | error e => simp [make_request_with_socket] at h
    | ok u2 =>
      cases lns with
      | nil => simp [make_request_with_socket] at h
      | cons first rest =>
        cases first with
        | error e => simp [make_request_with_socket] at h
        | ok line =>
          cases hps : parseStatusLine line with
          | error e => simp [make_request_with_socket, hps] at h
          | ok st =>
            obtain ⟨v, n, ex⟩ := st
            cases hloop : readHeadersLoop rest [] with
            | error e => simp [make_request_with_socket, hps, hloop] at h
            | ok pr =>
              cases br with
              | error e => simp [make_request_with_socket, hps, hloop] at h
              | ok body =>
                simp only [make_request_with_socket, hps, hloop] at h
                injection h with h
                refine ⟨line, v, ex, ?_⟩
                rw [← h]
                exact hps

/-- Claim C3: a status line with fewer than three space-separated tokens
fails with the invalid-status-line error; a second token rejected by the u16
parser fails with the invalid-status-code error; otherwise the first token
becomes the version, the numeric value of the second becomes the status, and
the remaining tokens rejoined with single spaces become the explanation, and
the engine propagates each of these outcomes. -/
theorem c3_status_parsing :
    (∀ line : String, (splitOnSpace (trimEndCRLF line).data).length < 3 →
      parseStatusLine line = .error "Invalid HTTP status line")
    ∧ (∀ (line v code e1 : String) (rest : List String),
        (splitOnSpace (trimEndCRLF line).data).map String.mk = v :: code :: e1 :: rest →
        (parseU16 code = none →
          parseStatusLine line = .error "Invalid HTTP status code")
        ∧ (∀ n, parseU16 code = some n →
            parseStatusLine line = .ok (v, n, " ".intercalate (e1 :: rest))))
    ∧ (∀ (sock : ScriptSocket) (url : Url) (line : String)
        (rest : List (Except String String)),
        sock.connectResult = .ok () → sock.sendResult = .ok () →
        sock.lines = .ok line :: rest →
        (∀ e, parseStatusLine line = .error e →
          (make_request_with_socket sock url).1 = .error e)
        ∧ (∀ (v : String) (n : Nat) (ex : String) (resp : HttpResponse),
            parseStatusLine line = .ok (v, n, ex) →
            (make_request_with_socket sock url).1 = .ok resp →
            resp.version = v ∧ resp.status = n ∧ resp.explanation = ex)) := by
  refine ⟨fun line h => parseStatusLine_short h, ?_, ?_⟩
  · intro line v code e1 rest h
    constructor
    · intro hn
      rw [parseStatusLine_tokens h, hn]
    · intro n hn
      rw [parseStatusLine_tokens h, hn]
  · intro sock url line rest hc hs hl
    constructor
    · intro e hpe
      simp [make_request_with_socket, hc, hs, hl, hpe]
    · intro v n ex resp hok hresp
      simp only [make_request_with_socket, hc, hs, hl, hok] at hresp
      split at hresp
      · exact absurd hresp (by simp)
      · split at hresp
        · exact absurd hresp (by simp)
        · simp only at hresp
          injection hresp with hresp
          rw [← hresp]
          exact ⟨rfl, rfl, rfl⟩

/-- Witness for C3 at concrete status lines and a concrete socket script. -/
theorem c3_status_parsing_witness :
    parseStatusLine "HTTP/1.1 200\r\n" = .error "Invalid HTTP status line"
    ∧ parseStatusLine "HTTP/1.1 ABC Not Found\r\n" = .error "Invalid HTTP status code"
    ∧ parseStatusLine "HTTP/1.0 404 Not Found\r\n" =
        .ok ("HTTP/1.0", 404, " ".intercalate ["Not", "Found"])
    ∧ (make_request_with_socket
        { connectResult := .ok (), sendResult := .ok (),
          lines := [.ok "HTTP/1.1 ABC Not Found\r\n"], bodyResult := .ok "" }
        { scheme := Scheme.Http, host := "h", path := "/" }).1 =
      .error "Invalid HTTP status code" := by
  refine ⟨?_, ?_, ?_, ?_⟩
  · exact c3_status_parsing.1 "HTTP/1.1 200\r\n" (by decide)
  · exact (c3_status_parsing.2.1 "HTTP/1.1 ABC Not Found\r\n"
      "HTTP/1.1" "ABC" "Not" ["Found"] (by decide)).1 (by decide)
  · exact (c3_status_parsing.2.1 "HTTP/1.0 404 Not Found\r\n"
      "HTTP/1.0" "404" "Not" ["Found"] (by decide)).2 404 (by decide)
  · exact (c3_status_parsing.2.2
      { connectResult := .ok (), sendResult := .ok (),
        lines := [.ok "HTTP/1.1 ABC Not Found\r\n"], bodyResult := .ok "" }
      { scheme := Scheme.Http, host := "h", path := "/" }
      "HTTP/1.1 ABC Not Found\r\n" [] rfl rfl rfl).1
      "Invalid HTTP status code" rfl

/-- Claim C10: the status field is a u16, so an all-digit second token whose
value exceeds 65535 is rejected by the u16 parser exactly like a non-numeric
token, the status-line parser fails with the invalid-status-code error, and
every response the engine produces carries a status of at most 65535. -/
theorem c10_status_u16 :
    (∀ tok : String, tok.data ≠ [] → (∀ c ∈ tok.data, c.isDigit) →
      65535 < digitsToNat tok.data → parseU16 tok = none)
    ∧ (∀ (line v code e1 : String) (rest : List String),
        (splitOnSpace (trimEndCRLF line).data).map String.mk = v :: code :: e1 :: rest →
        code.data ≠ [] → (∀ c ∈ code.data, c.isDigit) →
        65535 < digitsToNat code.data →
        parseStatusLine line = .error "Invalid HTTP status code")
    ∧ (∀ (sock : ScriptSocket) (url : Url) (resp : HttpResponse),
        (make_request_with_socket sock url).1 = .ok resp → resp.status ≤ 65535) := by
  refine ⟨?_, ?_, ?_⟩
  · intro tok hne hd hbig
    rw [parseU16_eq_core_of_digits hd]
    exact parseU16core_none_of_big hne hbig
  · intro line v code e1 rest h hne hd hbig
    rw [parseStatusLine_tokens h, parseU16_eq_core_of_digits hd,
      parseU16core_none_of_big hne hbig]
  · intro sock url resp h
    obtain ⟨line, v, ex, hps⟩ := make_request_status h
    exact parseStatusLine_status_le hps

/-- Witness for C10 at the all-digit overflowing token "70000". -/
theorem c10_status_u16_witness :
    parseU16 "70000" = none
    ∧ parseStatusLine "HTTP/1.1 70000 OK\r\n" = .error "Invalid HTTP status code"
    ∧ ({ version := "HTTP/1.1", status := 200, explanation := "OK",
         headers := [], body := "" } : HttpResponse).status ≤ 65535 := by
  refine ⟨?_, ?_, ?_⟩
  · exact c10_status_u16.1 "70000" (by decide) (by decide) (by decide)
  · exact c10_status_u16.2.1 "HTTP/1.1 70000 OK\r\n" "HTTP/1.1" "70000" "OK" []
      (by decide) (by decide) (by decide) (by decide)
  · exact c10_status_u16.2.2
      { connectResult := .ok (), sendResult := .ok (),
        lines := [.ok "HTTP/1.1 200 OK\r\n", .ok "\r\n"], bodyResult := .ok "" }
      { scheme := Scheme.Http, host := "h", path := "/" }
      { version := "HTTP/1.1", status := 200, explanation := "OK",
        headers := [], body := "" }
      rfl

/-! ## Lemmas about header parsing -/

/-- A colon-free line yields no split. -/
lemma splitAtColon_none {l : List Char} (h : ':' ∉ l) : splitAtColon l = none := by
  induction l with
  | nil => rfl
  | cons c rest ih =>
    simp only [List.mem_cons, not_or] at h
    have hc : ¬ c = ':' := fun hcc => h.1 hcc.symm
    simp [splitAtColon, hc, ih h.2]

/-- Splitting at the first colon of `pre ++ ':' :: post` when `pre` is
colon-free. -/
lemma splitAtColon_append {pre post : List Char} (h : ':' ∉ pre) :
    splitAtColon (pre ++ ':' :: post) = some (pre, post) := by
  induction pre with
  | nil => simp [splitAtColon]
  | cons c rest ih =>
    simp only [List.mem_cons, not_or] at h
    have hc : ¬ c = ':' := fun hcc => h.1 hcc.symm
    simp [splitAtColon, hc, ih h.2]

/-- Looking up the key just inserted finds the new value. -/
lemma getHeader_insert (hs : List (String × String)) (k v : String) :
    getHeader (insertHeader hs k v) k = some v := by
  unfold getHeader insertHeader
  rw [List.find?_append]
  have h1 : ((hs.filter fun p => p.1 != k).find? fun p => p.1 == k) = none := by
    rw [List.find?_eq_none]
    intro x hx
    rw [List.mem_filter] at hx
    have hne := hx.2
    simp only [bne_iff_ne] at hne
    simp [hne]
  rw [h1]
  simp [List.find?]

/-- Looking up any other key is unaffected by an insertion. -/
lemma getHeader_insert_ne (hs : List (String × String)) (k v q : String)
    (hqk : q ≠ k) : getHeader (insertHeader hs k v) q = getHeader hs q := by
  unfold getHeader insertHeader
  rw [List.find?_append]
  have h2 : (List.find? (fun p => p.1 == q) [(k, v)]) = none := by
    have hkq : (k == q) = false := beq_eq_false_iff_ne.mpr (Ne.symm hqk)
    simp [List.find?, hkq]
  rw [h2]
  have h3 : ((hs.filter fun p => p.1 != k).find? fun p => p.1 == q)
      = hs.find? fun p => p.1 == q := by
    induction hs with
    | nil => rfl
    | cons x t ih =>
      by_cases hx : x.1 = k
      · rw [List.filter_cons_of_neg (by simp [hx]),
          List.find?_cons_of_neg _ (by simp [hx, Ne.symm hqk]), ih]
      · rw [List.filter_cons_of_pos (by simp [hx])]
        by_cases hq : x.1 = q
        · rw [List.find?_cons_of_pos _ (by simp [hq]),
            List.find?_cons_of_pos _ (by simp [hq])]
        · rw [List.find?_cons_of_neg _ (by simp [hq]),
            List.find?_cons_of_neg _ (by simp [hq]), ih]
  rw [h3, Option.or_none]

/-- Claim C4: each parsed header line inserts its name, trimmed and
lower-cased, bound to its trimmed value; the binding inserted last wins on a
duplicate name while other names are unaffected; a non-blank colon-free line
is ignored, producing no entry and no error. -/
theorem c4_headers :
    (∀ (hs : List (String × String)) (k v : String),
      getHeader (insertHeader hs k v) k = some v)
    ∧ (∀ (hs : List (String × String)) (k v q : String), q ≠ k →
        getHeader (insertHeader hs k v) q = getHeader hs q)
    ∧ (∀ (hs : List (String × String)) (line : String)
        (rest : List (Except String String)), line ≠ "\r\n" →
        readHeadersLoop (.ok line :: rest) hs =
          readHeadersLoop rest (parseHeaderLine hs line))
    ∧ (∀ (hs : List (String × String)) (line : String),
        ':' ∉ (trimEndCRLF line).data → parseHeaderLine hs line = hs)
    ∧ (∀ (hs : List (String × String)) (line : String) (pre post : List Char),
        (trimEndCRLF line).data = pre ++ ':' :: post → ':' ∉ pre →
        parseHeaderLine hs line =
          insertHeader hs (String.mk pre).trim.toLower (String.mk post).trim) := by
  refine ⟨getHeader_insert, fun hs k v q h => getHeader_insert_ne hs k v q h, ?_, ?_, ?_⟩
  · intro hs line rest hne
    simp [readHeadersLoop, hne]
  · intro hs line h
    simp [parseHeaderLine, splitAtColon_none h]
  · intro hs line pre post hdata hpre
    simp [parseHeaderLine, hdata, splitAtColon_append hpre]

/-- Witness for C4 at concrete header lines. -/
theorem c4_headers_witness :
    getHeader (insertHeader [("x", "1")] "y" "2") "x" = getHeader [("x", "1")] "x"
    ∧ readHeadersLoop [Except.ok "A: b\r\n"] [] =
        readHeadersLoop [] (parseHeaderLine [] "A: b\r\n")
    ∧ parseHeaderLine [] "no colon line\r\n" = []
    ∧ parseHeaderLine [] "Content-Type: text/html\r\n" =
        insertHeader [] (String.mk "Content-Type".data).trim.toLower
          (String.mk " text/html".data).trim := by
  refine ⟨?_, ?_, ?_, ?_⟩
  · exact c4_headers.2.1 [("x", "1")] "y" "2" "x" (by decide)
  · exact c4_headers.2.2.1 [] "A: b\r\n" [] (by decide)
  · exact c4_headers.2.2.2.1 [] "no colon line\r\n" (by decide)
  · exact c4_headers.2.2.2.2 [] "Content-Type: text/html\r\n"
      "Content-Type".data " text/html".data (by decide) (by decide)

/-! ## Lemmas about the engine -/

/-- When a read_line failure precedes the blank separator, the header loop
fails. -/
lemma readHeadersLoop_error {rest : List (Except String String)}
    (h : failsBeforeBlank rest = true) :
    ∀ hs, ∃ e, readHeadersLoop rest hs = .error e := by
  induction rest with
  | nil => exact fun _ => ⟨"No more lines to read", rfl⟩
  | cons r t ih =>
    intro hs
    cases r with
    | error e => exact ⟨e, rfl⟩
    | ok line =>
      simp only [failsBeforeBlank, Bool.and_eq_true, bne_iff_ne] at h
      simp only [readHeadersLoop, if_neg h.1]
      exact ih h.2 (parseHeaderLine hs line)

/-- The engine issues exactly one trait-level connect call, always with
port 80. -/
lemma make_request_connects (sock : ScriptSocket) (url : Url) :
    (make_request_with_socket sock url).2.1 = [(url.host, 80)] := by
  obtain ⟨cr, sr, lns, br⟩ := sock
  cases cr with
  | error e => rfl
  | ok u =>
    cases sr with
    | error e => rfl
    | ok u2 =>
      cases lns with
      | nil => rfl
      | cons first rest =>
        cases first with
        | error e => rfl
        | ok line =>
          cases hps : parseStatusLine line with
          | error e => simp [make_request_with_socket, hps]
          | ok st =>
            obtain ⟨v, n, ex⟩ := st
            cases hloop : readHeadersLoop rest [] with
            | error e => simp [make_request_with_socket, hps, hloop]
            | ok pr =>
              cases br with
              | error e => simp [make_request_with_socket, hps, hloop]
              | ok body => simp [make_request_with_socket, hps, hloop]

/-- After a successful connect the engine issues exactly one send, carrying
the formatted request. -/
lemma make_request_sends (sock : ScriptSocket) (url : Url)
    (hc : sock.connectResult = Except.ok ()) :
    (make_request_with_socket sock url).2.2 =
      ["GET " ++ url.path ++ " HTTP/1.0\r\nHost: " ++ url.host ++ "\r\n\r\n"] := by
  obtain ⟨cr, sr, lns, br⟩ := sock
  replace hc : cr = Except.ok () := hc
  subst hc
  cases sr with
  | error e => rfl
  | ok u2 =>
    cases lns with
    | nil => rfl
    | cons first rest =>
      cases first with
      | error e => rfl
      | ok line =>
        cases hps : parseStatusLine line with
        | error e => simp [make_request_with_socket, hps]
        | ok st =>
          obtain ⟨v, n, ex⟩ := st
          cases hloop : readHeadersLoop rest [] with
          | error e => simp [make_request_with_socket, hps, hloop]
          | ok pr =>
            cases br with
            | error e => simp [make_request_with_socket, hps, hloop]
            | ok body => simp [make_request_with_socket, hps, hloop]

/-- Claim C2: a read_line failure after the status line and before the blank
separator makes the run fail with an error and no response; the byte-level
read_to_string treats end of stream as success with exactly the remaining
bytes; and when the header block terminates, the response body is exactly
the bytes the body read yields, the empty string included. -/
theorem c2_eof_policy :
    (∀ (sock : ScriptSocket) (url : Url) (line : String)
        (rest : List (Except String String)) (st : String × Nat × String),
        sock.connectResult = .ok () → sock.sendResult = .ok () →
        sock.lines = .ok line :: rest →
        parseStatusLine line = .ok st →
        failsBeforeBlank rest = true →
        ∃ e, (make_request_with_socket sock url).1 = .error e)
    ∧ (∀ stream : List Nat,
        read_to_string stream = .ok (String.mk (stream.map Char.ofNat), []))
    ∧ (∀ (sock : ScriptSocket) (url : Url) (line : String)
        (rest : List (Except String String)) (v : String) (n : Nat) (ex : String)
        (hs : List (String × String)) (rem : List (Except String String))
        (b : String),
        sock.connectResult = .ok () → sock.sendResult = .ok () →
        sock.lines = .ok line :: rest →
        parseStatusLine line = .ok (v, n, ex) →
        readHeadersLoop rest [] = .ok (hs, rem) →
        sock.bodyResult = .ok b →
        (make_request_with_socket sock url).1 =
          .ok { version := v, status := n, explanation := ex,
                headers := hs, body := b }) := by
  refine ⟨?_, fun _ => rfl, ?_⟩
  · intro sock url line rest st hc hsnd hl hps hfail
    obtain ⟨e, he⟩ := readHeadersLoop_error hfail []
    obtain ⟨v, n, ex⟩ := st
    exact ⟨e, by simp [make_request_with_socket, hc, hsnd, hl, hps, he]⟩
  · intro sock url line rest v n ex hs rem b hc hsnd hl hps hloop hb
    simp [make_request_with_socket, hc, hsnd, hl, hps, hloop, hb]

/-- Witness for C2: a stream closed during headers fails, while a response
whose body read yields zero bytes succeeds with an empty body. -/
theorem c2_eof_policy_witness :
    (∃ e, (make_request_with_socket
        { connectResult := .ok (), sendResult := .ok (),
          lines := [.ok "HTTP/1.1 200 OK\r\n", .ok "Content-Type: text/html\r\n"],
          bodyResult := .ok "" }
        { scheme := Scheme.Http, host := "h", path := "/" }).1 = .error e)
    ∧ (make_request_with_socket
        { connectResult := .ok (), sendResult := .ok (),
          lines := [.ok "HTTP/1.0 404 Not Found\r\n", .ok "\r\n"],
          bodyResult := .ok "" }
        { scheme := Scheme.Http, host := "h", path := "/" }).1 =
      .ok { version := "HTTP/1.0", status := 404, explanation := "Not Found",
            headers := [], body := "" } := by
  constructor
  · exact c2_eof_policy.1
      { connectResult := .ok (), sendResult := .ok (),
        lines := [.ok "HTTP/1.1 200 OK\r\n", .ok "Content-Type: text/html\r\n"],
        bodyResult := .ok "" }
      { scheme := Scheme.Http, host := "h", path := "/" }
      "HTTP/1.1 200 OK\r\n" [.ok "Content-Type: text/html\r\n"]
      ("HTTP/1.1", 200, "OK") rfl rfl rfl rfl (by decide)
  · exact c2_eof_policy.2.2
      { connectResult := .ok (), sendResult := .ok (),
        lines := [.ok "HTTP/1.0 404 Not Found\r\n", .ok "\r\n"],
        bodyResult := .ok "" }
      { scheme := Scheme.Http, host := "h", path := "/" }
      "HTTP/1.0 404 Not Found\r\n" [.ok "\r\n"] "HTTP/1.0" 404 "Not Found"
      [] [] "" rfl rfl rfl rfl rfl rfl

/-- Claim C7: after a successful connect the engine passes to send exactly
the single formatted request "GET {path} HTTP/1.0\r\nHost: {host}\r\n\r\n",
and a send failure aborts the run with that error and no response. -/
theorem c7_request_wire :
    ∀ (sock : ScriptSocket) (url : Url), sock.connectResult = .ok () →
      (make_request_with_socket sock url).2.2 =
        ["GET " ++ url.path ++ " HTTP/1.0\r\nHost: " ++ url.host ++ "\r\n\r\n"]
      ∧ (∀ e, sock.sendResult = .error e →
          (make_request_with_socket sock url).1 = .error e) := by
  intro sock url hc
  refine ⟨make_request_sends sock url hc, ?_⟩
  intro e hsr
  simp [make_request_with_socket, hc, hsr]

/-- Witness for C7 at a concrete socket and URL. -/
theorem c7_request_wire_witness :
    (make_request_with_socket
      { connectResult := .ok (), sendResult := .ok (),
        lines := [.ok "HTTP/1.0 200 OK\r\n", .ok "\r\n"], bodyResult := .ok "" }
      { scheme := Scheme.Http, host := "example.com", path := "/path" }).2.2 =
      ["GET " ++ "/path" ++ " HTTP/1.0\r\nHost: " ++ "example.com" ++ "\r\n\r\n"]
    ∧ (make_request_with_socket
      { connectResult := .ok (), sendResult := .error "Send failed",
        lines := [], bodyResult := .ok "" }
      { scheme := Scheme.Http, host := "example.com", path := "/path" }).1 =
      .error "Send failed" := by
  constructor
  · exact (c7_request_wire
      { connectResult := .ok (), sendResult := .ok (),
        lines := [.ok "HTTP/1.0 200 OK\r\n", .ok "\r\n"], bodyResult := .ok "" }
      { scheme := Scheme.Http, host := "example.com", path := "/path" } rfl).1
  · exact (c7_request_wire
      { connectResult := .ok (), sendResult := .error "Send failed",
        lines := [], bodyResult := .ok "" }
      { scheme := Scheme.Http, host := "example.com", path := "/path" } rfl).2
      "Send failed" rfl

/-- Concrete Https URL used in the analysis of claim C1. -/
def c1ExampleUrl : Url :=
  { scheme := Scheme.Https, host := "example.com", path := "/" }

/-- Concrete socket script used in the analysis of claim C1. -/
def c1ExampleSocket : ScriptSocket :=
  { connectResult := .ok (), sendResult := .ok (),
    lines := [.ok "HTTP/1.0 200 OK\r\n", .ok "\r\n"], bodyResult := .ok "" }

/-- Counterexample to claim C1 as stated: for an Https request the engine
does not use the fixed scheme port on every connect call, since the
trait-level connect call inside make_request_with_socket carries port 80. -/
theorem c1_counterexample :
    ¬ (∀ call ∈ (request c1ExampleUrl (.ok c1ExampleSocket)).2.1,
        call.2 = schemePort c1ExampleUrl.scheme) := by
  intro h
  have hm : (("example.com", 80) : String × Nat) ∈
      (request c1ExampleUrl (.ok c1ExampleSocket)).2.1 := by
    have htrace : (request c1ExampleUrl (.ok c1ExampleSocket)).2.1 =
        [("example.com", 443), ("example.com", 80)] := rfl
    rw [htrace]
    simp
  have h80 := h ("example.com", 80) hm
  simp [schemePort, c1ExampleUrl] at h80

/-- Claim C1 (amended): request selects the provider by the scheme of the
URL and connects it on the fixed port of that scheme -- plaintext on 80 for
Http, encrypted on 443 for Https, never a port parsed from the URL -- and a
provider failure is returned with no further calls; additionally the engine
issues one trait-level connect call inside make_request_with_socket that
always carries port 80, regardless of the scheme. -/
theorem c1_transport_selection :
    ∀ (url : Url) (provider : Except String ScriptSocket),
      (request url provider).2.1.head? = some (url.host, schemePort url.scheme)
      ∧ (∀ e, provider = .error e →
          request url provider = (.error e, [(url.host, schemePort url.scheme)], []))
      ∧ (∀ sock, provider = .ok sock →
          (request url provider).2.1 =
            [(url.host, schemePort url.scheme), (url.host, 80)]) := by
  intro url provider
  rcases url with ⟨scheme, host, path⟩
  refine ⟨?_, ?_, ?_⟩
  · cases scheme <;> cases provider <;>
      simp [request, schemePort, make_request_connects]
  · intro e he
    subst he
    cases scheme <;> simp [request, schemePort]
  · intro sock hs
    subst hs
    cases scheme <;> simp [request, schemePort, make_request_connects]

/-- Witness for the amended C1 at the concrete Https example. -/
theorem c1_transport_selection_witness :
    (request c1ExampleUrl (.ok c1ExampleSocket)).2.1 =
      [("example.com", schemePort Scheme.Https), ("example.com", 80)] := by
  have h := (c1_transport_selection c1ExampleUrl (.ok c1ExampleSocket)).2.2
    c1ExampleSocket rfl
  simpa [c1ExampleUrl] using h

end LearnBrowser
